import Mathlib

/-!
# sdb: tuple codec, buffer pool constructor and query orchestration

A shallow embedding of `engine/ssdb/tuple.go`, `engine/ssdb/buffer_pool.go`
and `sdb/sdb.go`, followed by theorems about them.

Conventions of the embedding:

* a byte is a `Nat`; a `[]byte` is a `ByteSlice`, which keeps the elements
  below `len` apart from those of the backing array between `len` and `cap`,
  because a Go slice expression `s[lo:hi]` is checked against `cap(s)`;
* `int32` is an `Int`, `uint32` a `Nat`; the conversions between them are
  written out with `% 2^32`;
* a run-time panic is the constructor `Run.panic`; a loop that Go writes as
  `for { ... }` takes a fuel argument and answers `none` when the fuel ends
  before the loop has left.
-/

namespace Sdb

/-! ## Outcomes -/

/-- Outcome of a call that either returns a value or stops with a run-time panic. -/
inductive Run (α : Type) where
  | ret (a : α)
  | panic
  deriving DecidableEq, Repr

/-! ## Byte slices -/

/-- Go `[]byte` value: `data` are the `len` visible elements, `spare` the
elements of the backing array from `len` up to `cap`. -/
structure ByteSlice where
  data : List Nat
  spare : List Nat
  deriving DecidableEq, Repr

/-- Go `len(bs)`. -/
def ByteSlice.len (bs : ByteSlice) : Nat := bs.data.length

/-- Go `cap(bs)`. -/
def ByteSlice.cap (bs : ByteSlice) : Nat := bs.data.length + bs.spare.length

/-- Go `bs[lo:hi]`: the elements from `lo` up to `hi` of the backing array; the
expression panics (`none`) unless `lo ≤ hi ≤ cap(bs)`. -/
def ByteSlice.slice (bs : ByteSlice) (lo hi : Nat) : Option (List Nat) :=
  if lo ≤ hi ∧ hi ≤ bs.cap then some (((bs.data ++ bs.spare).drop lo).take (hi - lo)) else none

/-- Go `copy(dst, src)`: overwrites the first `min(len(dst), len(src))` elements
of `dst`; the value is `dst` after the call. -/
def copy (dst src : List Nat) : List Nat :=
  src.take dst.length ++ dst.drop src.length

/-- Go `make([]byte, n)`: `n` zero bytes. -/
def make (n : Nat) : List Nat := List.replicate n 0

/-! ## The 4-byte helpers -/

/-- The byte order behind `putUint32OnBytes` and `bytesToUint32`, which live in a
file of package `ssdb` that is not among the sources: `enc v` are the four bytes
written for `v`, `dec b` the number read from four bytes. -/
structure Uint32Codec where
  enc : Nat → List Nat
  dec : List Nat → Nat

/-- The two helpers are inverse to each other: four bytes are written, and
reading them gives the number back. -/
def Uint32Codec.Lawful (c : Uint32Codec) : Prop :=
  ∀ v, v < 2 ^ 32 → (c.enc v).length = 4 ∧ c.dec (c.enc v) = v

/-- Go `putUint32OnBytes(b, v)`: writes the four bytes of `v` at `b[0..3]`; the
value is `b` after the call, `none` is the index panic on a buffer shorter than
four bytes. -/
def putUint32OnBytes (c : Uint32Codec) (b : List Nat) (v : Nat) : Option (List Nat) :=
  if b.length < 4 then none else some (copy b (c.enc v))

/-- Go `bytesToUint32(b)`: the `uint32` read from four bytes. -/
def bytesToUint32 (c : Uint32Codec) (b : List Nat) : Nat :=
  c.dec b % 2 ^ 32

/-- Modelled from the spec: the byte order of `putUint32OnBytes` and
`bytesToUint32`, whose file is missing; the spec fixes only the width (a tag and
an integer payload take 4 bytes each). This instance is big-endian. Every
theorem below that depends on the helpers is stated for an arbitrary lawful
codec; this one supplies concrete inputs. -/
def bigEndian : Uint32Codec where
  enc v := [v / 16777216 % 256, v / 65536 % 256, v / 256 % 256, v % 256]
  dec b :=
    match b with
    | [b0, b1, b2, b3] => ((b0 * 256 + b1) * 256 + b2) * 256 + b3
    | _ => 0

/-! ## Tuples -/

/-- Go `const Int32 Type = iota + 1`. -/
def Int32 : Nat := 1

/-- Go `const Byte64 Type = iota + 1` on the second line of the block. -/
def Byte64 : Nat := 2

/-- Go zero value of `[64]byte`. -/
def zero64 : List Nat := List.replicate 64 0

/-- Go `TupleData`: a column of a row. -/
structure TupleData where
  Typ : Nat
  Int32Val : Int
  Byte64Val : List Nat
  deriving DecidableEq, Repr

/-- Go `Tuple`: `Data []*TupleData`, where `none` is a nil pointer. -/
structure Tuple where
  Data : List (Option TupleData)
  deriving DecidableEq, Repr

/-- Go `interface{}` value handed to `NewTuple`, by dynamic type: an `int32`, a
`[64]byte`, or a value of any other type (named by `typeName`). -/
inductive Value where
  | int32 (v : Int)
  | byte64 (b : List Nat)
  | other (typeName : String)
  deriving DecidableEq, Repr

/-- A value of a supported column type that is well-formed for that type: an
`int32` within range, a `[64]byte` of 64 elements. -/
def Value.Supported : Value → Prop
  | .int32 v => -2147483648 ≤ v ∧ v < 2147483648
  | .byte64 b => b.length = 64
  | .other _ => False

instance (v : Value) : Decidable v.Supported := by
  cases v <;> unfold Value.Supported <;> infer_instance

/-- Go `uint32(x)` for `x int32`. -/
def toUint32 (x : Int) : Nat := (x % 4294967296).toNat

/-- Go `int32(u)` for `u uint32`. -/
def toInt32 (u : Nat) : Int :=
  if u % 4294967296 < 2147483648 then (u % 4294967296 : Nat) else ((u % 4294967296 : Nat) : Int) - 4294967296

/-- One iteration of the loop of Go `NewTuple`: the pointer stored at `t.Data[i]`. -/
def newTupleData : Value → Option TupleData
  | .int32 actual => some { Typ := Int32, Int32Val := actual, Byte64Val := zero64 }
  | .byte64 actual => some { Typ := Byte64, Int32Val := 0, Byte64Val := actual }
  | .other _ => none

/-- Go `NewTuple(values)`: one slot per value; the slot of a value of another
type keeps the nil of `make`. -/
def NewTuple (values : List Value) : Tuple :=
  { Data := values.map newTupleData }

/-- What Go `NewTuple(values)` writes to standard output: one warning per value
that is neither `int32` nor `[64]byte`. -/
def NewTupleStdout (values : List Value) : List String :=
  values.filterMap fun v =>
    match v with
    | .other _ => some "[WARN] unexpected type in init tuple"
    | _ => none

/-- Body of the loop of Go `SerializeTuple` for one column `d`: the bytes handed
to `buf.Write`. A nil `d` panics at `d.Typ`; a tag outside the switch leaves
`result` nil, and the tag write panics on it. -/
def serializeColumn (c : Uint32Codec) (d : Option TupleData) : Run (List Nat) :=
  match d with
  | none => .panic
  | some d =>
    let result : Option (List Nat) :=
      if d.Typ = Int32 then
        let result := make (4 + 4)
        let val := make 4
        match putUint32OnBytes c val (toUint32 d.Int32Val) with
        | none => none
        | some val => some (result.take 4 ++ copy (result.drop 4) val)
      else if d.Typ = Byte64 then
        let result := make (4 + 64)
        some (result.take 4 ++ copy (result.drop 4) d.Byte64Val)
      else some []
    match result with
    | none => .panic
    | some result =>
      match putUint32OnBytes c result (d.Typ % 4294967296) with
      | none => .panic
      | some result => .ret result

/-- Loop of Go `SerializeTuple` over the columns still to write, `buf` being
the bytes written so far. -/
def serializeLoop (c : Uint32Codec) : List (Option TupleData) → List Nat → Run (List Nat)
  | [], buf => .ret buf
  | d :: ds, buf =>
    match serializeColumn c d with
    | .panic => .panic
    | .ret result => serializeLoop c ds (buf ++ result)

/-- Go `SerializeTuple(t)`: the visible bytes of `buf.Bytes()`. -/
def SerializeTuple (c : Uint32Codec) (t : Tuple) : Run (List Nat) :=
  serializeLoop c t.Data []

/-- State after one iteration of the loop of Go `DeserializeTuple`. -/
inductive Iter where
  | exit (t : Tuple)
  | panic
  | next (offset : Nat) (data : List (Option TupleData))
  deriving DecidableEq, Repr

/-- One iteration of the loop of Go `DeserializeTuple` at read offset `offset`
with `data` the columns appended to `t.Data` so far. A tag that is neither
`Int32` nor `Byte64` matches no case of the switch: the iteration ends with
`offset` and `t.Data` unchanged. -/
def deserializeIter (c : Uint32Codec) (bs : ByteSlice) (offset : Nat)
    (data : List (Option TupleData)) : Iter :=
  if bs.len ≤ offset then .exit { Data := data }
  else
    match bs.slice offset (offset + 4) with
    | none => .panic
    | some tb =>
      let typ := bytesToUint32 c tb
      if typ = Int32 then
        match bs.slice (offset + 4) (offset + 4 + 4) with
        | none => .panic
        | some vb =>
          let d : TupleData :=
            { Typ := Int32, Int32Val := toInt32 (bytesToUint32 c vb), Byte64Val := zero64 }
          .next (offset + (4 + 4)) (data ++ [some d])
      else if typ = Byte64 then
        match bs.slice (offset + 4) (offset + 4 + 64) with
        | none => .panic
        | some vb =>
          let d : TupleData := { Typ := Byte64, Int32Val := 0, Byte64Val := copy zero64 vb }
          .next (offset + (4 + 64)) (data ++ [some d])
      else .next offset data

/-- The loop of Go `DeserializeTuple` run for at most `fuel` iterations from the
state `(offset, data)`; `none` when the loop has not left after `fuel`
iterations. -/
def deserializeLoop (c : Uint32Codec) (bs : ByteSlice) :
    Nat → Nat → List (Option TupleData) → Option (Run Tuple)
  | 0, _, _ => none
  | fuel + 1, offset, data =>
    match deserializeIter c bs offset data with
    | .exit t => some (.ret t)
    | .panic => some .panic
    | .next offset data => deserializeLoop c bs fuel offset data

/-- Go `DeserializeTuple(bs)` run for at most `fuel` iterations of its loop. -/
def DeserializeTuple (c : Uint32Codec) (bs : ByteSlice) (fuel : Nat) : Option (Run Tuple) :=
  deserializeLoop c bs fuel 0 []

/-! ## The byte layout in the words of the specification -/

/-- Block of one column as the specification words it: the 4-byte encoding of
the type tag followed by the payload, which is the 4-byte encoding of the value
reinterpreted as `uint32` for an `int32` and the 64 bytes unchanged for a
`[64]byte`. -/
def columnBlock (c : Uint32Codec) : Value → List Nat
  | .int32 v => c.enc Int32 ++ c.enc (toUint32 v)
  | .byte64 b => c.enc Byte64 ++ b
  | .other _ => []

/-- Concatenation, in column order, of the blocks of the columns. -/
def layout (c : Uint32Codec) : List Value → List Nat
  | [] => []
  | v :: vs => columnBlock c v ++ layout c vs

/-- Number of `int32` values in a list. -/
def countInt32 : List Value → Nat
  | [] => 0
  | .int32 _ :: vs => countInt32 vs + 1
  | _ :: vs => countInt32 vs

/-- Number of `[64]byte` values in a list. -/
def countByte64 : List Value → Nat
  | [] => 0
  | .byte64 _ :: vs => countByte64 vs + 1
  | _ :: vs => countByte64 vs

/-- Number of values in a list that are neither an `int32` nor a `[64]byte`. -/
def countOther : List Value → Nat
  | [] => 0
  | .other _ :: vs => countOther vs + 1
  | _ :: vs => countOther vs

/-! ## Buffer pool -/

/-- Go `error` value, by its message; a nil error is `none : Option GoError`. -/
abbrev GoError := String

/-- Go `BufferPool`; `Cache` stands for `lru.Cache`, whose package is not among
the sources. -/
structure BufferPool (Cache : Type) where
  frames : Cache
  deriving DecidableEq, Repr

/-- Go `NewBufferPool(entryCount)`, with result `(*BufferPool, error)`. `lruNew`
stands for `lru.New(lru.WithCap(·))`, whose package is not among the sources:
`none` is a call that panics, `some` the cache it returns. -/
def NewBufferPool {Cache : Type} (lruNew : Int → Option Cache) (entryCount : Int) :
    Run (Option (BufferPool Cache) × Option GoError) :=
  match lruNew entryCount with
  | none => .panic
  | some frames => .ret (some { frames := frames }, none)

/-! ## Query orchestration -/

/-- Go `Parameter`. -/
structure Parameter where
  Query : String
  deriving DecidableEq, Repr

/-- Go `Error`. -/
structure Error where
  Message : String
  deriving DecidableEq, Repr

/-- Go `ResultSet`. -/
structure ResultSet where
  Message : String
  Columns : List String
  Values : List (List String)
  Count : Int
  deriving DecidableEq, Repr

/-- Go `Result`; `none` is a nil pointer. -/
structure Result where
  Code : String
  RS : Option ResultSet
  Error : Option Error
  deriving DecidableEq, Repr

/-- A call of a method of a component, as recorded in the order of invocation. -/
inductive Call where
  | Parse
  | Plan
  | Execute
  | Persist
  | EngineShutdown
  deriving DecidableEq, Repr

/-- Go `Parser` interface over a world `W` that the method may change. -/
structure Parser (W Stmt : Type) where
  Parse : String → W → (Stmt × Option GoError) × W

/-- Go `Planner` interface. -/
structure Planner (W Stmt Pln : Type) where
  Plan : Stmt → W → (Pln × Option GoError) × W

/-- Go `Executor` interface; the first component of the result is the `*Result`. -/
structure Executor (W Pln : Type) where
  Execute : Pln → W → (Option Result × Option GoError) × W

/-- Go `Catalog` interface, the method that `SDB` calls. -/
structure Catalog (W : Type) where
  Persist : W → Option GoError × W

/-- Go `Engine` interface, the method that `SDB` calls. -/
structure Engine (W : Type) where
  Shutdown : W → Option GoError × W

/-- Go `SDB`, the components that `ExecuteQuery` and `Shutdown` use. -/
structure SDB (W Stmt Pln : Type) where
  parser : Parser W Stmt
  planner : Planner W Stmt Pln
  catalog : Catalog W
  executor : Executor W Pln
  engine : Engine W

/-- Go `(*SDB).ExecuteQuery(param)` from the world `w`: the outcome, the world
after the call, and the component methods invoked, in order. Reading
`result.RS.Message` panics when `result` or `result.RS` is nil. -/
def ExecuteQuery {W Stmt Pln : Type} (sdb : SDB W Stmt Pln) (param : Parameter) (w : W) :
    Run Result × W × List Call :=
  match sdb.parser.Parse param.Query w with
  | ((_, some err), w) =>
    (.ret { Code := "NG", RS := none, Error := some { Message := "failed to parse query: " ++ err } },
      w, [.Parse])
  | ((stmt, none), w) =>
    match sdb.planner.Plan stmt w with
    | ((_, some err), w) =>
      (.ret { Code := "NG", RS := none, Error := some { Message := "failed to plan query: " ++ err } },
        w, [.Parse, .Plan])
    | ((plan, none), w) =>
      match sdb.executor.Execute plan w with
      | ((_, some err), w) =>
        (.ret { Code := "NG", RS := none,
                Error := some { Message := "failed to execute query: " ++ err } },
          w, [.Parse, .Plan, .Execute])
      | ((none, none), w) => (.panic, w, [.Parse, .Plan, .Execute])
      | ((some result, none), w) =>
        match result.RS with
        | none => (.panic, w, [.Parse, .Plan, .Execute])
        | some rs =>
          (.ret { Code := "OK",
                  RS := some { Message := rs.Message, Columns := [], Values := [], Count := 0 },
                  Error := none },
            w, [.Parse, .Plan, .Execute])

/-- Go `(*SDB).Shutdown()` from the world `w`: the error returned, the world after
the call, and the component methods invoked, in order. -/
def Shutdown {W Stmt Pln : Type} (sdb : SDB W Stmt Pln) (w : W) :
    Option GoError × W × List Call :=
  match sdb.catalog.Persist w with
  | (some err, w) => (some err, w, [.Persist])
  | (none, w) =>
    match sdb.engine.Shutdown w with
    | (err, w) => (err, w, [.Persist, .EngineShutdown])

/-- What `sdb.parser.Parse` answers for the query. -/
def parseOut {W Stmt Pln : Type} (sdb : SDB W Stmt Pln) (param : Parameter) (w : W) :
    (Stmt × Option GoError) × W :=
  sdb.parser.Parse param.Query w

/-- What `sdb.planner.Plan` answers for the parsed statement. -/
def planOut {W Stmt Pln : Type} (sdb : SDB W Stmt Pln) (param : Parameter) (w : W) :
    (Pln × Option GoError) × W :=
  sdb.planner.Plan (parseOut sdb param w).1.1 (parseOut sdb param w).2

/-- What `sdb.executor.Execute` answers for the plan. -/
def executeOut {W Stmt Pln : Type} (sdb : SDB W Stmt Pln) (param : Parameter) (w : W) :
    (Option Result × Option GoError) × W :=
  sdb.executor.Execute (planOut sdb param w).1.1 (planOut sdb param w).2

/-- Parse, Plan and Execute all return without error. -/
def StagesSucceed {W Stmt Pln : Type} (sdb : SDB W Stmt Pln) (param : Parameter) (w : W) :
    Prop :=
  (parseOut sdb param w).1.2 = none ∧ (planOut sdb param w).1.2 = none ∧
    (executeOut sdb param w).1.2 = none

/-- Components for concrete runs: the world counts the calls made; each method
answers with the error and the result given here. -/
def scriptedSDB (parseErr planErr execErr persistErr shutdownErr : Option GoError)
    (execResult : Option Result) : SDB Nat String String where
  parser := { Parse := fun sql w => ((sql, parseErr), w + 1) }
  planner := { Plan := fun stmt w => (("plan of " ++ stmt, planErr), w + 1) }
  catalog := { Persist := fun w => (persistErr, w + 1) }
  executor := { Execute := fun _ w => ((execResult, execErr), w + 1) }
  engine := { Shutdown := fun w => (shutdownErr, w + 1) }

/-! ## Lemmas on the helpers -/

theorem copy_length (dst src : List Nat) : (copy dst src).length = dst.length := by
  simp only [copy, List.length_append, List.length_take, List.length_drop]
  omega

theorem copy_of_length_eq (dst src : List Nat) (h : src.length = dst.length) :
    copy dst src = src := by
  simp [copy, ← h]

theorem copy_short (dst src : List Nat) (h : src.length ≤ dst.length) :
    copy dst src = src ++ dst.drop src.length := by
  simp [copy, List.take_of_length_le h]

theorem toInt32_toUint32 (v : Int) (h : -2147483648 ≤ v ∧ v < 2147483648) :
    toInt32 (toUint32 v) = v := by
  unfold toInt32 toUint32
  split <;> omega

theorem toUint32_lt (v : Int) : toUint32 v < 2 ^ 32 := by
  unfold toUint32
  omega

theorem bigEndian_lawful : bigEndian.Lawful := by
  intro v hv
  refine ⟨rfl, ?_⟩
  simp only [bigEndian]
  omega

theorem bytesToUint32_enc (c : Uint32Codec) (hc : c.Lawful) (v : Nat) (hv : v < 2 ^ 32) :
    bytesToUint32 c (c.enc v) = v := by
  unfold bytesToUint32
  rw [(hc v hv).2]
  exact Nat.mod_eq_of_lt hv

theorem slice_mid (bs : ByteSlice) (pre mid rest : List Nat)
    (h : bs.data ++ bs.spare = pre ++ mid ++ rest) :
    bs.slice pre.length (pre.length + mid.length) = some mid := by
  have hcap : bs.cap = pre.length + mid.length + rest.length := by
    have := congrArg List.length h
    simp only [List.length_append] at this
    simpa [ByteSlice.cap] using this
  unfold ByteSlice.slice
  rw [if_pos ⟨by omega, by omega⟩, h]
  simp [List.append_assoc]

/-! ## Lemmas on `SerializeTuple` -/

theorem columnBlock_length (c : Uint32Codec) (hc : c.Lawful) (v : Value) (hv : v.Supported) :
    (columnBlock c v).length =
      match v with
      | .int32 _ => 8
      | .byte64 _ => 68
      | .other _ => 0 := by
  have h1 := (hc Int32 (by decide)).1
  have h2 := (hc Byte64 (by decide)).1
  cases v with
  | int32 x =>
    have h3 := (hc (toUint32 x) (toUint32_lt x)).1
    simp [columnBlock, h1, h3]
  | byte64 b =>
    have hb : b.length = 64 := hv
    simp [columnBlock, h2, hb]
  | other n => simp [columnBlock]

theorem serializeColumn_supported (c : Uint32Codec) (hc : c.Lawful) (v : Value)
    (hv : v.Supported) : serializeColumn c (newTupleData v) = .ret (columnBlock c v) := by
  have h1 := (hc Int32 (by decide)).1
  have h2 := (hc Byte64 (by decide)).1
  cases v with
  | int32 x =>
    have h3 := (hc (toUint32 x) (toUint32_lt x)).1
    have hval : copy (make 4) (c.enc (toUint32 x)) = c.enc (toUint32 x) :=
      copy_of_length_eq _ _ (by simp [make, h3])
    have hres : copy (List.drop 4 (make (4 + 4))) (c.enc (toUint32 x)) = c.enc (toUint32 x) :=
      copy_of_length_eq _ _ (by simp [make, h3])
    have htag : copy (List.take 4 (make (4 + 4)) ++ c.enc (toUint32 x)) (c.enc Int32)
        = c.enc Int32 ++ c.enc (toUint32 x) := by
      rw [copy_short _ _ (by simp [make, h1, h3])]
      simp [make, h1]
    simp only [serializeColumn, newTupleData, putUint32OnBytes, columnBlock]
    simp [make, h3] at hval hres htag ⊢
    simp [hval, hres, Int32] at htag ⊢
    simp [h3, htag]
  | byte64 b =>
    have hb : b.length = 64 := hv
    have hres : copy (List.drop 4 (make (4 + 64))) b = b :=
      copy_of_length_eq _ _ (by simp [make, hb])
    have htag : copy (List.take 4 (make (4 + 64)) ++ b) (c.enc Byte64) = c.enc Byte64 ++ b := by
      rw [copy_short _ _ (by simp [make, h2, hb])]
      simp [make, h2]
    simp only [serializeColumn, newTupleData, putUint32OnBytes, columnBlock]
    simp [make, hb] at hres htag ⊢
    simp [hres, Byte64, Int32] at htag ⊢
    simp [hb, htag]
  | other n => exact absurd hv (by simp [Value.Supported])

theorem serializeLoop_supported (c : Uint32Codec) (hc : c.Lawful) (vs : List Value)
    (hvs : ∀ v ∈ vs, v.Supported) (buf : List Nat) :
    serializeLoop c (vs.map newTupleData) buf = .ret (buf ++ layout c vs) := by
  induction vs generalizing buf with
  | nil => simp [serializeLoop, layout]
  | cons v vs ih =>
    have hv := hvs v (List.mem_cons_self v vs)
    have hrest : ∀ w ∈ vs, w.Supported := fun w hw => hvs w (List.mem_cons_of_mem v hw)
    simp only [List.map_cons, serializeLoop, serializeColumn_supported c hc v hv, layout]
    rw [ih hrest]
    simp [List.append_assoc]

theorem SerializeTuple_supported (c : Uint32Codec) (hc : c.Lawful) (vs : List Value)
    (hvs : ∀ v ∈ vs, v.Supported) :
    SerializeTuple c (NewTuple vs) = .ret (layout c vs) := by
  simpa [SerializeTuple, NewTuple] using serializeLoop_supported c hc vs hvs []

theorem layout_length (c : Uint32Codec) (hc : c.Lawful) (vs : List Value)
    (hvs : ∀ v ∈ vs, v.Supported) :
    (layout c vs).length = 8 * countInt32 vs + 68 * countByte64 vs := by
  induction vs with
  | nil => simp [layout, countInt32, countByte64]
  | cons v vs ih =>
    have hv := hvs v (List.mem_cons_self v vs)
    have hrest : ∀ w ∈ vs, w.Supported := fun w hw => hvs w (List.mem_cons_of_mem v hw)
    have hb := columnBlock_length c hc v hv
    cases v with
    | int32 x => simp [layout, countInt32, countByte64, ih hrest, hb]; omega
    | byte64 b => simp [layout, countInt32, countByte64, ih hrest, hb]; omega
    | other n => exact absurd hv (by simp [Value.Supported])

/-! ## Lemmas on `DeserializeTuple` -/

theorem columnBlock_pos (c : Uint32Codec) (hc : c.Lawful) (v : Value) (hv : v.Supported) :
    0 < (columnBlock c v).length := by
  have hb := columnBlock_length c hc v hv
  cases v with
  | int32 x => simp only at hb; omega
  | byte64 b => simp only at hb; omega
  | other n => exact absurd hv (by simp [Value.Supported])

/-- One iteration on a well-formed column: when the backing array holds the
block of `v` at `offset`, and `offset` is below `len`, the iteration appends the
column of `v` and moves to the end of the block. -/
theorem deserializeIter_column (c : Uint32Codec) (hc : c.Lawful) (v : Value)
    (hv : v.Supported) (bs : ByteSlice) (pre rest : List Nat)
    (h : bs.data ++ bs.spare = pre ++ columnBlock c v ++ rest)
    (hlen : pre.length < bs.len) (data : List (Option TupleData)) :
    deserializeIter c bs pre.length data =
      .next (pre.length + (columnBlock c v).length) (data ++ [newTupleData v]) := by
  have h1 := (hc Int32 (by decide)).1
  have h2 := (hc Byte64 (by decide)).1
  have hexit : ¬ bs.len ≤ pre.length := by omega
  cases v with
  | int32 x =>
    have h3 := (hc (toUint32 x) (toUint32_lt x)).1
    have htag : bs.slice pre.length (pre.length + 4) = some (c.enc Int32) := by
      have := slice_mid bs pre (c.enc Int32) (c.enc (toUint32 x) ++ rest)
        (by simpa [columnBlock, List.append_assoc] using h)
      simpa [h1] using this
    have hval : bs.slice (pre.length + 4) (pre.length + 4 + 4) = some (c.enc (toUint32 x)) := by
      have := slice_mid bs (pre ++ c.enc Int32) (c.enc (toUint32 x)) rest
        (by simpa [columnBlock, List.append_assoc] using h)
      simpa [h1, h3] using this
    have hx : toInt32 (toUint32 x) = x := toInt32_toUint32 x hv
    simp only [deserializeIter, if_neg hexit, htag, hval,
      bytesToUint32_enc c hc Int32 (by decide),
      bytesToUint32_enc c hc (toUint32 x) (toUint32_lt x), if_true, hx, newTupleData,
      columnBlock, List.length_append, h1, h3]
  | byte64 b =>
    have hb : b.length = 64 := hv
    have htag : bs.slice pre.length (pre.length + 4) = some (c.enc Byte64) := by
      have := slice_mid bs pre (c.enc Byte64) (b ++ rest)
        (by simpa [columnBlock, List.append_assoc] using h)
      simpa [h2] using this
    have hval : bs.slice (pre.length + 4) (pre.length + 4 + 64) = some b := by
      have := slice_mid bs (pre ++ c.enc Byte64) b rest
        (by simpa [columnBlock, List.append_assoc] using h)
      simpa [h2, hb] using this
    have hcopy : copy zero64 b = b := copy_of_length_eq _ _ (by simp [zero64, hb])
    have hne : ¬ Byte64 = Int32 := by decide
    simp only [deserializeIter, if_neg hexit, htag, hval,
      bytesToUint32_enc c hc Byte64 (by decide), if_neg hne, if_true, hcopy, newTupleData,
      columnBlock, List.length_append, h2, hb]
  | other n => exact absurd hv (by simp [Value.Supported])

/-- The loop on a run of well-formed columns: when the backing array holds the
blocks of `vs` from `offset` on, all of them below `len`, then `vs.length`
iterations append the columns of `vs` and reach the end of the last block. -/
theorem deserializeLoop_layout (c : Uint32Codec) (hc : c.Lawful) (vs : List Value)
    (hvs : ∀ v ∈ vs, v.Supported) (bs : ByteSlice) (pre rest : List Nat)
    (h : bs.data ++ bs.spare = pre ++ layout c vs ++ rest)
    (hlen : pre.length + (layout c vs).length ≤ bs.len)
    (data : List (Option TupleData)) (k : Nat) :
    deserializeLoop c bs (vs.length + k) pre.length data =
      deserializeLoop c bs k (pre.length + (layout c vs).length)
        (data ++ vs.map newTupleData) := by
  induction vs generalizing pre data with
  | nil => simp [layout]
  | cons v vs ih =>
    have hv := hvs v (List.mem_cons_self v vs)
    have hrest : ∀ w ∈ vs, w.Supported := fun w hw => hvs w (List.mem_cons_of_mem v hw)
    have hpos := columnBlock_pos c hc v hv
    simp only [layout, List.length_append] at hlen
    have hiter := deserializeIter_column c hc v hv bs pre (layout c vs ++ rest)
      (by simpa [layout, List.append_assoc] using h) (by omega) data
    have hfuel : (v :: vs).length + k = (vs.length + k) + 1 := by simp; omega
    rw [hfuel, deserializeLoop, hiter]
    have := ih hrest (pre ++ columnBlock c v) (by simpa [layout, List.append_assoc] using h)
      (by simpa [List.length_append] using (by omega : pre.length + (columnBlock c v).length
        + (layout c vs).length ≤ bs.len)) (data ++ [newTupleData v])
    simp only [List.length_append] at this
    show deserializeLoop c bs (vs.length + k) (pre.length + (columnBlock c v).length)
        (data ++ [newTupleData v]) = _
    rw [this]
    simp [layout, List.append_assoc, Nat.add_assoc]

/-- Decoding the layout of supported values gives back their tuple. -/
theorem DeserializeTuple_layout (c : Uint32Codec) (hc : c.Lawful) (vs : List Value)
    (hvs : ∀ v ∈ vs, v.Supported) (spare : List Nat) (fuel : Nat) (hfuel : vs.length < fuel) :
    DeserializeTuple c { data := layout c vs, spare := spare } fuel
      = some (.ret (NewTuple vs)) := by
  obtain ⟨k, rfl⟩ : ∃ k, fuel = vs.length + (k + 1) := ⟨fuel - vs.length - 1, by omega⟩
  have := deserializeLoop_layout c hc vs hvs { data := layout c vs, spare := spare } [] spare
    (by simp) (by simp [ByteSlice.len]) [] (k + 1)
  simp only [List.length_nil, Nat.zero_add, List.nil_append] at this
  rw [DeserializeTuple, this, deserializeLoop, deserializeIter, if_pos (by simp [ByteSlice.len])]
  rfl

/-- An iteration that leaves the state as it found it repeats for ever: the loop
has not left after any number of iterations. -/
theorem deserializeLoop_stuck (c : Uint32Codec) (bs : ByteSlice) (offset : Nat)
    (data : List (Option TupleData)) (h : deserializeIter c bs offset data = .next offset data)
    (fuel : Nat) : deserializeLoop c bs fuel offset data = none := by
  induction fuel with
  | zero => rfl
  | succ fuel ih => rw [deserializeLoop, h]; exact ih

/-- More fuel does not change an outcome already reached. -/
theorem deserializeLoop_add (c : Uint32Codec) (bs : ByteSlice) (fuel k : Nat) (offset : Nat)
    (data : List (Option TupleData)) (r : Run Tuple)
    (h : deserializeLoop c bs fuel offset data = some r) :
    deserializeLoop c bs (fuel + k) offset data = some r := by
  induction fuel generalizing offset data with
  | zero => simp [deserializeLoop] at h
  | succ fuel ih =>
    have hfuel : fuel + 1 + k = (fuel + k) + 1 := by omega
    rw [hfuel, deserializeLoop]
    rw [deserializeLoop] at h
    cases hit : deserializeIter c bs offset data with
    | exit t => simpa [hit] using h
    | panic => simpa [hit] using h
    | next o d =>
      rw [hit] at h
      exact ih o d h

/-- One iteration on a tag outside the switch: when the four bytes at `offset`
decode to neither `Int32` nor `Byte64`, the iteration changes nothing. -/
theorem deserializeIter_unknown_tag (c : Uint32Codec) (bs : ByteSlice)
    (pre tb rest : List Nat) (h : bs.data ++ bs.spare = pre ++ tb ++ rest)
    (htb : tb.length = 4) (hlen : pre.length < bs.len)
    (h1 : bytesToUint32 c tb ≠ Int32) (h2 : bytesToUint32 c tb ≠ Byte64)
    (data : List (Option TupleData)) :
    deserializeIter c bs pre.length data = .next pre.length data := by
  have hexit : ¬ bs.len ≤ pre.length := by omega
  have htag : bs.slice pre.length (pre.length + 4) = some tb := by
    have := slice_mid bs pre tb rest h
    simpa [htb] using this
  simp only [deserializeIter, if_neg hexit, htag, if_neg h1, if_neg h2]

theorem slice_none (bs : ByteSlice) (lo hi : Nat) (h : bs.cap < hi) : bs.slice lo hi = none := by
  unfold ByteSlice.slice
  rw [if_neg (by omega)]

/-- One iteration on a column cut short, the slice having no spare capacity:
the slice expression of the tag or of the payload is out of range. -/
theorem deserializeIter_truncated (c : Uint32Codec) (hc : c.Lawful) (v : Value)
    (hv : v.Supported) (pre : List Nat) (m : Nat) (hm0 : 0 < m)
    (hm : m < (columnBlock c v).length) (data : List (Option TupleData)) :
    deserializeIter c { data := pre ++ (columnBlock c v).take m, spare := [] } pre.length data
      = .panic := by
  have h1 := (hc Int32 (by decide)).1
  have h2 := (hc Byte64 (by decide)).1
  have hlen : (ByteSlice.mk (pre ++ (columnBlock c v).take m) []).len = pre.length + m := by
    simp [ByteSlice.len, List.length_take, Nat.min_eq_left (Nat.le_of_lt hm)]
  have hcap : (ByteSlice.mk (pre ++ (columnBlock c v).take m) []).cap = pre.length + m := by
    simp [ByteSlice.cap, List.length_take, Nat.min_eq_left (Nat.le_of_lt hm)]
  have hexit : ¬ (ByteSlice.mk (pre ++ (columnBlock c v).take m) []).len ≤ pre.length := by
    omega
  by_cases h4 : m < 4
  · have htag := slice_none (ByteSlice.mk (pre ++ (columnBlock c v).take m) []) pre.length
      (pre.length + 4) (by omega)
    simp only [deserializeIter, if_neg hexit, htag]
  · have hb := columnBlock_length c hc v hv
    cases v with
    | int32 x =>
      simp only at hb
      have htake : (columnBlock c (.int32 x)).take m
          = c.enc Int32 ++ (c.enc (toUint32 x)).take (m - 4) := by
        simp only [columnBlock, List.take_append_eq_append_take, h1]
        rw [List.take_of_length_le (by omega)]
      have htag : (ByteSlice.mk (pre ++ (columnBlock c (.int32 x)).take m) []).slice pre.length
          (pre.length + 4) = some (c.enc Int32) := by
        have := slice_mid (ByteSlice.mk (pre ++ (columnBlock c (.int32 x)).take m) []) pre
          (c.enc Int32) ((c.enc (toUint32 x)).take (m - 4))
          (by simp [htake, List.append_assoc])
        simpa [h1] using this
      have hval := slice_none (ByteSlice.mk (pre ++ (columnBlock c (.int32 x)).take m) [])
        (pre.length + 4) (pre.length + 4 + 4) (by omega)
      simp only [deserializeIter, if_neg hexit, htag, hval,
        bytesToUint32_enc c hc Int32 (by decide), if_true]
    | byte64 b =>
      simp only at hb
      have htake : (columnBlock c (.byte64 b)).take m
          = c.enc Byte64 ++ b.take (m - 4) := by
        simp only [columnBlock, List.take_append_eq_append_take, h2]
        rw [List.take_of_length_le (by omega)]
      have htag : (ByteSlice.mk (pre ++ (columnBlock c (.byte64 b)).take m) []).slice pre.length
          (pre.length + 4) = some (c.enc Byte64) := by
        have := slice_mid (ByteSlice.mk (pre ++ (columnBlock c (.byte64 b)).take m) []) pre
          (c.enc Byte64) (b.take (m - 4))
          (by simp [htake, List.append_assoc])
        simpa [h2] using this
      have hval := slice_none (ByteSlice.mk (pre ++ (columnBlock c (.byte64 b)).take m) [])
        (pre.length + 4) (pre.length + 4 + 64) (by omega)
      have hne : ¬ Byte64 = Int32 := by decide
      simp only [deserializeIter, if_neg hexit, htag, hval,
        bytesToUint32_enc c hc Byte64 (by decide), if_neg hne, if_true]
    | other n => exact absurd hv (by simp [Value.Supported])

/-- The loop on a run of columns cut at `m` bytes, `m` falling inside a column
and the slice having no spare capacity: the complete columns are decoded and
the iteration on the cut column panics. -/
theorem deserializeLoop_truncated (c : Uint32Codec) (hc : c.Lawful) (vs : List Value)
    (hvs : ∀ v ∈ vs, v.Supported) (pre : List Nat) (m : Nat)
    (hm : m < (layout c vs).length)
    (hcut : ∀ j, j ≤ vs.length → m ≠ (layout c (vs.take j)).length)
    (data : List (Option TupleData)) (fuel : Nat) (hfuel : vs.length ≤ fuel) :
    deserializeLoop c { data := pre ++ (layout c vs).take m, spare := [] } fuel pre.length data
      = some .panic := by
  induction vs generalizing pre m data fuel with
  | nil => simp [layout] at hm
  | cons v vs ih =>
    have hv := hvs v (List.mem_cons_self v vs)
    have hrest : ∀ w ∈ vs, w.Supported := fun w hw => hvs w (List.mem_cons_of_mem v hw)
    obtain ⟨f, rfl⟩ : ∃ f, fuel = f + 1 := ⟨fuel - 1, by simp at hfuel; omega⟩
    have hf : vs.length ≤ f := by simp at hfuel; omega
    have hm0 : 0 < m := by
      have := hcut 0 (Nat.zero_le _)
      simp [layout] at this
      omega
    have hm1 : m ≠ (columnBlock c v).length := by
      have := hcut 1 (by simp)
      simpa [layout] using this
    simp only [layout, List.length_append] at hm
    by_cases hlt : m < (columnBlock c v).length
    · have htake : (layout c (v :: vs)).take m = (columnBlock c v).take m := by
        simp only [layout, List.take_append_eq_append_take]
        rw [show m - (columnBlock c v).length = 0 by omega]
        simp
      rw [htake, deserializeLoop, deserializeIter_truncated c hc v hv pre m hm0 hlt data]
    · have htake : (layout c (v :: vs)).take m
          = columnBlock c v ++ (layout c vs).take (m - (columnBlock c v).length) := by
        simp only [layout, List.take_append_eq_append_take]
        rw [List.take_of_length_le (by omega)]
      have hiter := deserializeIter_column c hc v hv
        (ByteSlice.mk (pre ++ (layout c (v :: vs)).take m) []) pre
        ((layout c vs).take (m - (columnBlock c v).length))
        (by simp [htake, List.append_assoc])
        (by simp [ByteSlice.len, htake]; omega) data
      rw [deserializeLoop, hiter]
      have hcut2 : ∀ j, j ≤ vs.length →
          m - (columnBlock c v).length ≠ (layout c (vs.take j)).length := by
        intro j hj
        have := hcut (j + 1) (by simp; omega)
        simp only [List.take_succ_cons, layout, List.length_append] at this
        omega
      have := ih hrest (pre ++ columnBlock c v) (m - (columnBlock c v).length) (by omega)
        hcut2 (data ++ [newTupleData v]) f hf
      simp only [List.length_append, List.append_assoc] at this
      simpa [htake, List.append_assoc] using this

theorem layout_append (c : Uint32Codec) (xs ys : List Value) :
    layout c (xs ++ ys) = layout c xs ++ layout c ys := by
  induction xs with
  | nil => simp [layout]
  | cons x xs ih => simp [layout, ih, List.append_assoc]

/-- The loop on a prefix cut inside a column, taken as a sub-slice `enc[:n]` of
a buffer (the rest of the buffer is the spare capacity of the slice): the
columns before the cut are decoded, then the cut column is decoded too, its
bytes read past the length of the slice, and the loop leaves. -/
theorem deserializeLoop_subslice (c : Uint32Codec) (hc : c.Lawful) (vs1 : List Value)
    (v : Value) (vs2 : List Value) (hvs : ∀ x ∈ vs1 ++ v :: vs2, x.Supported)
    (n : Nat) (hlo : (layout c vs1).length < n)
    (hhi : n < (layout c vs1).length + (columnBlock c v).length) (extra : List Nat)
    (k : Nat) :
    deserializeLoop c
        { data := (layout c (vs1 ++ v :: vs2)).take n,
          spare := (layout c (vs1 ++ v :: vs2)).drop n ++ extra }
        (vs1.length + (k + 2)) 0 []
      = some (.ret (NewTuple (vs1 ++ [v]))) := by
  have hvs1 : ∀ x ∈ vs1, x.Supported := fun x hx => hvs x (List.mem_append_left _ hx)
  have hv : v.Supported := hvs v (List.mem_append_right _ (List.mem_cons_self v vs2))
  have hfull : layout c (vs1 ++ v :: vs2) = layout c vs1 ++ columnBlock c v ++ layout c vs2 := by
    simp [layout_append, layout, List.append_assoc]
  have hlen : (ByteSlice.mk ((layout c (vs1 ++ v :: vs2)).take n)
      ((layout c (vs1 ++ v :: vs2)).drop n ++ extra)).len = n := by
    have : n ≤ (layout c (vs1 ++ v :: vs2)).length := by
      rw [hfull]
      simp only [List.length_append]
      omega
    simp [ByteSlice.len, List.length_take, Nat.min_eq_left this]
  have hcat : (layout c (vs1 ++ v :: vs2)).take n
      ++ ((layout c (vs1 ++ v :: vs2)).drop n ++ extra)
      = layout c vs1 ++ columnBlock c v ++ layout c vs2 ++ extra := by
    rw [← List.append_assoc, List.take_append_drop, hfull]
  have hrun := deserializeLoop_layout c hc vs1 hvs1
    (ByteSlice.mk ((layout c (vs1 ++ v :: vs2)).take n)
      ((layout c (vs1 ++ v :: vs2)).drop n ++ extra)) []
    (columnBlock c v ++ layout c vs2 ++ extra)
    (by simp only [hcat]; simp [List.append_assoc])
    (by rw [hlen]; simp; omega) [] (k + 2)
  simp only [List.length_nil, Nat.zero_add, List.nil_append] at hrun
  have hiter := deserializeIter_column c hc v hv
    (ByteSlice.mk ((layout c (vs1 ++ v :: vs2)).take n)
      ((layout c (vs1 ++ v :: vs2)).drop n ++ extra)) (layout c vs1)
    (layout c vs2 ++ extra)
    (by simp only [hcat]; simp [List.append_assoc])
    (by rw [hlen]; exact hlo) (vs1.map newTupleData)
  rw [hrun, deserializeLoop, hiter]
  show deserializeLoop c _ (k + 1) _ _ = _
  rw [deserializeLoop, deserializeIter, if_pos (by rw [hlen]; omega)]
  simp [NewTuple]

/-! ## Theorems on the tuple codec -/

/-- C1: round trip of the tuple codec. For every list of supported column
values, with `t = NewTuple values`, `SerializeTuple t` returns bytes, and
`DeserializeTuple` of those bytes (whatever the spare capacity of the slice,
and for every fuel above the number of columns) returns a tuple equal to `t`:
the same number of columns and, column by column and in the same order, the
same type tag, `Int32Val` and `Byte64Val`. The 4-byte helpers are taken to be
inverse to each other (`c.Lawful`). -/
theorem tuple_round_trip (c : Uint32Codec) (hc : c.Lawful) (values : List Value)
    (hvalues : ∀ v ∈ values, v.Supported) (spare : List Nat) (fuel : Nat)
    (hfuel : values.length < fuel) :
    ∃ bytes, SerializeTuple c (NewTuple values) = .ret bytes ∧
      DeserializeTuple c { data := bytes, spare := spare } fuel
        = some (.ret (NewTuple values)) :=
  ⟨layout c values, SerializeTuple_supported c hc values hvalues,
    DeserializeTuple_layout c hc values hvalues spare fuel hfuel⟩

/-- Witness of C1 at the values `-7` and a `[64]byte` of zeros, big-endian helpers. -/
theorem tuple_round_trip_witness :
    ∃ bytes, SerializeTuple bigEndian (NewTuple [.int32 (-7), .byte64 zero64]) = .ret bytes ∧
      DeserializeTuple bigEndian { data := bytes, spare := [9, 9] } 3
        = some (.ret (NewTuple [.int32 (-7), .byte64 zero64])) :=
  tuple_round_trip bigEndian bigEndian_lawful [.int32 (-7), .byte64 zero64] (by decide)
    [9, 9] 3 (by decide)

/-- C2: encoded length. For every tuple built by `NewTuple` from supported
values with `a` `int32` columns and `b` `[64]byte` columns, `SerializeTuple`
returns `8*a + 68*b` bytes; in particular the tuple of the `int32` value 42 and a
`[64]byte` of zeros encodes to exactly 76 bytes, and `DeserializeTuple` of those
76 bytes returns the two original values. -/
theorem serialize_length (c : Uint32Codec) (hc : c.Lawful) (values : List Value)
    (hvalues : ∀ v ∈ values, v.Supported) :
    (∃ bytes, SerializeTuple c (NewTuple values) = .ret bytes ∧
      bytes.length = 8 * countInt32 values + 68 * countByte64 values) ∧
    (∃ bytes, SerializeTuple c (NewTuple [.int32 42, .byte64 zero64]) = .ret bytes ∧
      bytes.length = 76 ∧
      ∀ spare, DeserializeTuple c { data := bytes, spare := spare } 3 =
        some (.ret { Data := [some { Typ := Int32, Int32Val := 42, Byte64Val := zero64 },
                              some { Typ := Byte64, Int32Val := 0, Byte64Val := zero64 }] })) := by
  have hex : ∀ v ∈ [Value.int32 42, Value.byte64 zero64], v.Supported := by decide
  refine ⟨⟨layout c values, SerializeTuple_supported c hc values hvalues,
    layout_length c hc values hvalues⟩, ⟨layout c [.int32 42, .byte64 zero64],
    SerializeTuple_supported c hc _ hex, ?_, ?_⟩⟩
  · rw [layout_length c hc _ hex]
    rfl
  · intro spare
    exact DeserializeTuple_layout c hc _ hex spare 3 (by decide)

/-- Witness of C2 at three columns, big-endian helpers. -/
theorem serialize_length_witness :
    (∃ bytes, SerializeTuple bigEndian (NewTuple [.int32 5, .byte64 zero64, .int32 (-1)])
        = .ret bytes ∧
      bytes.length = 8 * countInt32 [.int32 5, .byte64 zero64, .int32 (-1)]
        + 68 * countByte64 [.int32 5, .byte64 zero64, .int32 (-1)]) ∧
    (∃ bytes, SerializeTuple bigEndian (NewTuple [.int32 42, .byte64 zero64]) = .ret bytes ∧
      bytes.length = 76 ∧
      ∀ spare, DeserializeTuple bigEndian { data := bytes, spare := spare } 3 =
        some (.ret { Data := [some { Typ := Int32, Int32Val := 42, Byte64Val := zero64 },
                              some { Typ := Byte64, Int32Val := 0, Byte64Val := zero64 }] })) :=
  serialize_length bigEndian bigEndian_lawful [.int32 5, .byte64 zero64, .int32 (-1)]
    (by decide)

/-- C3: byte layout. For every tuple of supported columns, `SerializeTuple t` is
the concatenation, in column order, of one block per column, each block being
the 4-byte encoding of the type tag (`Int32 = 1`, `Byte64 = 2`) followed by the
payload (`layout`, written from the words of the specification); the empty
tuple encodes to the empty byte sequence. -/
theorem serialize_layout (c : Uint32Codec) (hc : c.Lawful) (values : List Value)
    (hvalues : ∀ v ∈ values, v.Supported) :
    SerializeTuple c (NewTuple values) = .ret (layout c values) ∧
    Int32 = 1 ∧ Byte64 = 2 ∧
    SerializeTuple c (NewTuple []) = .ret [] :=
  ⟨SerializeTuple_supported c hc values hvalues, rfl, rfl, rfl⟩

/-- Witness of C3 at the values 258 and a `[64]byte` of zeros, big-endian helpers. -/
theorem serialize_layout_witness :
    SerializeTuple bigEndian (NewTuple [.int32 258, .byte64 zero64])
      = .ret (layout bigEndian [.int32 258, .byte64 zero64]) ∧
    Int32 = 1 ∧ Byte64 = 2 ∧
    SerializeTuple bigEndian (NewTuple []) = .ret [] :=
  serialize_layout bigEndian bigEndian_lawful [.int32 258, .byte64 zero64] (by decide)

/-- C5, as the code has it: `NewTuple` has no error result. For every list of
values it returns a tuple with one slot per value; the slot of an `int32` or a
`[64]byte` holds the column of that value, the slot of a value of any other type
is left nil; and what it writes to standard output is one warning for each
value of another type, nothing else. -/
theorem NewTuple_unsupported (values : List Value) :
    (NewTuple values).Data.length = values.length ∧
    (∀ (i : Nat) (typeName : String), values[i]? = some (Value.other typeName) →
      (NewTuple values).Data[i]? = some none) ∧
    (∀ (i : Nat) (a : Int), values[i]? = some (Value.int32 a) →
      (NewTuple values).Data[i]?
        = some (some (TupleData.mk Int32 a zero64))) ∧
    (∀ (i : Nat) (b : List Nat), values[i]? = some (Value.byte64 b) →
      (NewTuple values).Data[i]?
        = some (some (TupleData.mk Byte64 0 b))) ∧
    NewTupleStdout values
      = List.replicate (countOther values) "[WARN] unexpected type in init tuple" := by
  refine ⟨by simp [NewTuple], ?_, ?_, ?_, ?_⟩
  · intro i typeName h
    simp [NewTuple, h, newTupleData]
  · intro i a h
    simp [NewTuple, h, newTupleData]
  · intro i b h
    simp [NewTuple, h, newTupleData]
  · induction values with
    | nil => rfl
    | cons v vs ih =>
      cases v with
      | int32 a => simpa [NewTupleStdout, countOther] using ih
      | byte64 b => simpa [NewTupleStdout, countOther] using ih
      | other n =>
        simp only [NewTupleStdout, countOther, List.filterMap_cons, List.replicate_succ]
        exact congrArg _ ih

/-- Witness of the amended C5 at a value of type `string`, an `int32` and a value
of type `int64`: three slots, the first and the last nil, two warnings. -/
theorem NewTuple_unsupported_witness :
    (NewTuple [.other "string", .int32 7, .other "int64"]).Data.length = 3 ∧
    (NewTuple [.other "string", .int32 7, .other "int64"]).Data[0]? = some none ∧
    (NewTuple [.other "string", .int32 7, .other "int64"]).Data[2]? = some none ∧
    (NewTuple [.other "string", .int32 7, .other "int64"]).Data[1]?
      = some (some { Typ := Int32, Int32Val := 7, Byte64Val := zero64 }) ∧
    NewTupleStdout [.other "string", .int32 7, .other "int64"]
      = ["[WARN] unexpected type in init tuple", "[WARN] unexpected type in init tuple"] :=
  ⟨(NewTuple_unsupported [.other "string", .int32 7, .other "int64"]).1,
    (NewTuple_unsupported [.other "string", .int32 7, .other "int64"]).2.1 0 "string" rfl,
    (NewTuple_unsupported [.other "string", .int32 7, .other "int64"]).2.1 2 "int64" rfl,
    (NewTuple_unsupported [.other "string", .int32 7, .other "int64"]).2.2.1 1 7 rfl,
    (NewTuple_unsupported [.other "string", .int32 7, .other "int64"]).2.2.2.2⟩

/-- Counterexample to C5 as stated: for an `int32` followed by a value of type
`string`, `NewTuple` returns a tuple, and the second column of that tuple is
left empty (nil). -/
theorem NewTuple_unsupported_counterexample :
    NewTuple [.int32 7, .other "string"] =
      { Data := [some { Typ := Int32, Int32Val := 7, Byte64Val := zero64 }, none] } := by
  rfl

/-- C4, on the code: an unknown tag is not a decode failure. When the four
bytes `tb` at a column boundary (offset 0, or the end of the encoding `pre` of
any tuple of supported `values`) decode to a tag that is neither `Int32` nor
`Byte64`, `DeserializeTuple` never leaves its loop: after no number of
iterations has it returned a tuple, panicked or reported anything. -/
theorem unknown_tag_never_leaves (c : Uint32Codec) (hc : c.Lawful) (values : List Value)
    (hvalues : ∀ v ∈ values, v.Supported) (pre : List Nat)
    (hpre : SerializeTuple c (NewTuple values) = .ret pre)
    (tb rest spare : List Nat) (htb : tb.length = 4)
    (h1 : bytesToUint32 c tb ≠ Int32) (h2 : bytesToUint32 c tb ≠ Byte64) (fuel : Nat) :
    DeserializeTuple c { data := pre ++ tb ++ rest, spare := spare } fuel = none := by
  have hlayout : pre = layout c values := by
    have := SerializeTuple_supported c hc values hvalues
    rw [hpre] at this
    exact Run.ret.inj this
  subst hlayout
  have hstuck : ∀ k, deserializeLoop c
      { data := layout c values ++ tb ++ rest, spare := spare } (values.length + k) 0 [] = none := by
    intro k
    have hrun := deserializeLoop_layout c hc values hvalues
      { data := layout c values ++ tb ++ rest, spare := spare } [] (tb ++ rest ++ spare)
      (by simp [List.append_assoc]) (by simp [ByteSlice.len]) [] k
    simp only [List.length_nil, Nat.zero_add, List.nil_append] at hrun
    rw [hrun]
    apply deserializeLoop_stuck
    exact deserializeIter_unknown_tag c _ (layout c values) tb (rest ++ spare)
      (by simp [List.append_assoc]) htb (by simp [ByteSlice.len, htb]) h1 h2 _
  cases hrun : DeserializeTuple c { data := layout c values ++ tb ++ rest, spare := spare } fuel with
  | none => rfl
  | some r =>
    have hmore := deserializeLoop_add c _ fuel values.length 0 [] r hrun
    rw [Nat.add_comm, hstuck fuel] at hmore
    exact absurd hmore (by simp)

/-- Witness of C4 on the code: the column 42 followed by the tag 3 and two more
bytes, big-endian helpers. -/
theorem unknown_tag_never_leaves_witness :
    DeserializeTuple bigEndian
      { data := [0, 0, 0, 1, 0, 0, 0, 42] ++ [0, 0, 0, 3] ++ [1, 2], spare := [] } 1000
      = none :=
  unknown_tag_never_leaves bigEndian bigEndian_lawful [.int32 42] (by decide)
    [0, 0, 0, 1, 0, 0, 0, 42] (by rfl) [0, 0, 0, 3] [1, 2] [] rfl (by decide) (by decide) 1000

/-- C9, on the code: `DeserializeTuple` does not terminate on every input. On
the four bytes that encode the tag 0, one iteration of the loop leaves the read
offset at 0 and `t.Data` empty, so the loop has not left after any number of
iterations. -/
theorem deserialize_loop_not_terminating (c : Uint32Codec) (hc : c.Lawful) :
    deserializeIter c { data := c.enc 0, spare := [] } 0 [] = .next 0 [] ∧
    ∀ fuel, DeserializeTuple c { data := c.enc 0, spare := [] } fuel = none := by
  have hiter : deserializeIter c { data := c.enc 0, spare := [] } 0 [] = .next 0 [] := by
    have h0 := bytesToUint32_enc c hc 0 (by decide)
    exact deserializeIter_unknown_tag c _ [] (c.enc 0) [] (by simp) (hc 0 (by decide)).1
      (by simp [ByteSlice.len, (hc 0 (by decide)).1]) (by rw [h0]; decide) (by rw [h0]; decide) []
  exact ⟨hiter, fun fuel => deserializeLoop_stuck c _ 0 [] hiter fuel⟩

/-- Witness of C9 on the code: big-endian helpers, the input `00 00 00 00`. -/
theorem deserialize_loop_not_terminating_witness :
    deserializeIter bigEndian { data := [0, 0, 0, 0], spare := [] } 0 [] = .next 0 [] ∧
    ∀ fuel, DeserializeTuple bigEndian { data := [0, 0, 0, 0], spare := [] } fuel = none :=
  deserialize_loop_not_terminating bigEndian bigEndian_lawful

/-- Lemma on truncation without spare capacity: for every tuple of supported
columns and every strict prefix of its encoding whose length `n` is not a
column boundary, held in a slice with `cap = len`, `DeserializeTuple` stops with
a run-time panic at the slice expression that reaches past the end. -/
theorem truncated_panics (c : Uint32Codec) (hc : c.Lawful) (values : List Value)
    (hvalues : ∀ v ∈ values, v.Supported) (bytes : List Nat)
    (hser : SerializeTuple c (NewTuple values) = .ret bytes) (n : Nat) (hn : n < bytes.length)
    (hcut : ∀ j, j ≤ values.length → ∀ b,
      SerializeTuple c (NewTuple (values.take j)) = .ret b → n ≠ b.length)
    (fuel : Nat) (hfuel : values.length ≤ fuel) :
    DeserializeTuple c { data := bytes.take n, spare := [] } fuel = some .panic := by
  have hbytes : bytes = layout c values := by
    have := SerializeTuple_supported c hc values hvalues
    rw [hser] at this
    exact Run.ret.inj this
  subst hbytes
  have hcut2 : ∀ j, j ≤ values.length → n ≠ (layout c (values.take j)).length := by
    intro j hj
    exact hcut j hj _ (SerializeTuple_supported c hc _
      (fun v hv => hvalues v (List.mem_of_mem_take hv)))
  simpa [DeserializeTuple] using
    deserializeLoop_truncated c hc values hvalues [] n hn hcut2 [] fuel hfuel

/-- C6, on the code: a truncated stream is decoded, not reported. Let `bytes`
encode a tuple of supported columns and let `n` fall strictly inside the column
`v` (after the encoding `b1` of the columns before it, before the end `b2` of
its own block). For the prefix taken as the Go sub-slice `bytes[:n]`, whose
backing array still holds the rest of the buffer, `DeserializeTuple` returns a
tuple: the columns before the cut and the cut column itself, read past the
length of the slice. No decode error is surfaced. -/
theorem truncated_subslice_returns_tuple (c : Uint32Codec) (hc : c.Lawful)
    (vs1 : List Value) (v : Value) (vs2 : List Value)
    (hvalues : ∀ x ∈ vs1 ++ v :: vs2, x.Supported) (bytes b1 b2 : List Nat)
    (hser : SerializeTuple c (NewTuple (vs1 ++ v :: vs2)) = .ret bytes)
    (hb1 : SerializeTuple c (NewTuple vs1) = .ret b1)
    (hb2 : SerializeTuple c (NewTuple (vs1 ++ [v])) = .ret b2)
    (n : Nat) (hlo : b1.length < n) (hhi : n < b2.length) (extra : List Nat)
    (fuel : Nat) (hfuel : vs1.length + 2 ≤ fuel) :
    n < bytes.length ∧
    DeserializeTuple c { data := bytes.take n, spare := bytes.drop n ++ extra } fuel
      = some (.ret (NewTuple (vs1 ++ [v]))) := by
  have hvs1 : ∀ x ∈ vs1, x.Supported := fun x hx => hvalues x (List.mem_append_left _ hx)
  have hv : v.Supported := hvalues v (List.mem_append_right _ (List.mem_cons_self v vs2))
  have hvs1v : ∀ x ∈ vs1 ++ [v], x.Supported := by
    intro x hx
    rcases List.mem_append.mp hx with h | h
    · exact hvs1 x h
    · rw [List.mem_singleton.mp h]; exact hv
  have e0 : bytes = layout c (vs1 ++ v :: vs2) := by
    have := SerializeTuple_supported c hc _ hvalues
    rw [hser] at this
    exact Run.ret.inj this
  have e1 : b1 = layout c vs1 := by
    have := SerializeTuple_supported c hc _ hvs1
    rw [hb1] at this
    exact Run.ret.inj this
  have e2 : b2 = layout c (vs1 ++ [v]) := by
    have := SerializeTuple_supported c hc _ hvs1v
    rw [hb2] at this
    exact Run.ret.inj this
  subst e0 e1 e2
  have hlen2 : (layout c (vs1 ++ [v])).length
      = (layout c vs1).length + (columnBlock c v).length := by
    simp [layout_append, layout]
  have hlen0 : (layout c (vs1 ++ v :: vs2)).length
      = (layout c vs1).length + (columnBlock c v).length + (layout c vs2).length := by
    simp [layout_append, layout, Nat.add_assoc]
  obtain ⟨k, rfl⟩ : ∃ k, fuel = vs1.length + (k + 2) := ⟨fuel - vs1.length - 2, by omega⟩
  exact ⟨by omega, deserializeLoop_subslice c hc vs1 v vs2 hvalues n hlo (by omega) extra k⟩

/-- Witness of C6 on the code: the tuple of the one `int32` value 42 encodes to 8
bytes; the prefix of 5 of them, taken as the Go slice `enc[:5]` (the last 3
bytes are still in its backing array), is cut inside the payload, and
`DeserializeTuple` returns a tuple for it, the column 42. -/
theorem truncated_subslice_returns_tuple_witness :
    SerializeTuple bigEndian (NewTuple [.int32 42]) = .ret [0, 0, 0, 1, 0, 0, 0, 42] ∧
    5 < [0, 0, 0, 1, 0, 0, 0, 42].length ∧
    DeserializeTuple bigEndian
      { data := List.take 5 [0, 0, 0, 1, 0, 0, 0, 42],
        spare := List.drop 5 [0, 0, 0, 1, 0, 0, 0, 42] ++ [] } 2
      = some (.ret (NewTuple ([] ++ [.int32 42]))) :=
  ⟨by rfl, truncated_subslice_returns_tuple bigEndian bigEndian_lawful [] (.int32 42) []
    (by decide) [0, 0, 0, 1, 0, 0, 0, 42] [] [0, 0, 0, 1, 0, 0, 0, 42] (by rfl) (by rfl)
    (by rfl) 5 (by decide) (by decide) [] 2 (by decide)⟩

/-! ## Theorems on the buffer pool -/

/-- C7, as the code has it: `NewBufferPool` does not validate `entryCount`. For
every `entryCount`, positive or not, for which `lru.New` returns a cache,
`NewBufferPool` returns a pool holding that cache and a nil error; and whatever
`lru.New` does, `NewBufferPool` never returns a non-nil error. -/
theorem NewBufferPool_ok {Cache : Type} (lruNew : Int → Option Cache) (entryCount : Int)
    (frames : Cache) (h : lruNew entryCount = some frames) :
    NewBufferPool lruNew entryCount = .ret (some { frames := frames }, none) ∧
    ∀ (lruNew2 : Int → Option Cache) (n : Int) (p : Option (BufferPool Cache)) (e : GoError),
      NewBufferPool lruNew2 n ≠ .ret (p, some e) := by
  constructor
  · simp [NewBufferPool, h]
  · intro lruNew2 n p e
    unfold NewBufferPool
    cases lruNew2 n <;> simp

/-- Witness of the amended C7 at `entryCount = -3`, the cache being its capacity. -/
theorem NewBufferPool_ok_witness :
    NewBufferPool (fun cap => some cap) (-3) = .ret (some { frames := (-3 : Int) }, none) ∧
    ∀ (lruNew2 : Int → Option Int) (n : Int) (p : Option (BufferPool Int)) (e : GoError),
      NewBufferPool lruNew2 n ≠ .ret (p, some e) :=
  NewBufferPool_ok (fun cap => some cap) (-3) (-3) rfl

/-- Counterexample to C7 as stated: for `entryCount = 0`, whatever `lru.New` is,
`NewBufferPool` does not return a non-nil error together with no pool; with an
`lru.New` that returns, it returns a pool and a nil error. -/
theorem NewBufferPool_counterexample :
    (¬ ∃ (Cache : Type) (lruNew : Int → Option Cache) (e : GoError),
      NewBufferPool lruNew 0 = .ret (none, some e)) ∧
    NewBufferPool (fun cap => some cap) 0 = .ret (some { frames := (0 : Int) }, none) := by
  constructor
  · rintro ⟨Cache, lruNew, e, h⟩
    unfold NewBufferPool at h
    cases hl : lruNew 0 <;> simp [hl] at h
  · rfl

/-! ## Theorems on the query orchestration -/

/-- C10: `Shutdown` persists the catalog before stopping the engine and
short-circuits on failure. If `catalog.Persist` returns an error, `Shutdown`
returns exactly that error and `engine.Shutdown` is not called (the only call
is `Persist`); if `catalog.Persist` succeeds, `engine.Shutdown` is called exactly
once, after `Persist`, on the world `Persist` left, and `Shutdown` returns exactly
its result. -/
theorem Shutdown_order {W Stmt Pln : Type} (sdb : SDB W Stmt Pln) (w : W) :
    (∀ err w1, sdb.catalog.Persist w = (some err, w1) →
      Shutdown sdb w = (some err, w1, [.Persist])) ∧
    (∀ w1, sdb.catalog.Persist w = (none, w1) →
      Shutdown sdb w =
        ((sdb.engine.Shutdown w1).1, (sdb.engine.Shutdown w1).2, [.Persist, .EngineShutdown])) := by
  constructor
  · intro err w1 h
    simp [Shutdown, h]
  · intro w1 h
    simp [Shutdown, h]

/-- Witness of C10: a catalog whose `Persist` fails with "disk full", and one whose
`Persist` succeeds before an engine whose `Shutdown` fails with "busy". -/
theorem Shutdown_order_witness :
    Shutdown (scriptedSDB none none none (some "disk full") none none) 0
      = (some "disk full", 1, [.Persist]) ∧
    Shutdown (scriptedSDB none none none none (some "busy") none) 0
      = (some "busy", 2, [.Persist, .EngineShutdown]) :=
  ⟨(Shutdown_order (scriptedSDB none none none (some "disk full") none none) 0).1
      "disk full" 1 rfl,
    (Shutdown_order (scriptedSDB none none none none (some "busy") none) 0).2 1 rfl⟩

/-- C8, as the code has it: shape of the result of `ExecuteQuery`. For every
parser, planner, executor and query, provided `Execute` never returns a nil
error together with a nil `*Result` or a `Result` whose `RS` is nil,
`ExecuteQuery` returns a `Result`; it has `Code` "OK", a non-nil `RS` and a nil
`Error` exactly when Parse, Plan and Execute all return without error, and
otherwise `Code` "NG", a non-nil `Error` and a nil `RS`. When a stage fails the
later stages are not invoked: after a parse error the world is the one `Parse`
left and `Parse` is the only call; after a plan error the world is the one
`Plan` left and the calls are `Parse`, `Plan`; otherwise the world is the one
`Execute` left and the calls are `Parse`, `Plan`, `Execute`. -/
theorem ExecuteQuery_shape {W Stmt Pln : Type} (sdb : SDB W Stmt Pln) (param : Parameter)
    (w : W)
    (hexec : ∀ plan w1, (sdb.executor.Execute plan w1).1.2 = none →
      ∃ res rs, (sdb.executor.Execute plan w1).1.1 = some res ∧ res.RS = some rs) :
    ∃ res w2 calls, ExecuteQuery sdb param w = (.ret res, w2, calls) ∧
      (StagesSucceed sdb param w → res.Code = "OK" ∧ res.RS ≠ none ∧ res.Error = none) ∧
      (¬ StagesSucceed sdb param w → res.Code = "NG" ∧ res.Error ≠ none ∧ res.RS = none) ∧
      ((parseOut sdb param w).1.2 ≠ none →
        w2 = (parseOut sdb param w).2 ∧ calls = [.Parse]) ∧
      ((parseOut sdb param w).1.2 = none → (planOut sdb param w).1.2 ≠ none →
        w2 = (planOut sdb param w).2 ∧ calls = [.Parse, .Plan]) ∧
      ((parseOut sdb param w).1.2 = none → (planOut sdb param w).1.2 = none →
        w2 = (executeOut sdb param w).2 ∧ calls = [.Parse, .Plan, .Execute]) := by
  unfold StagesSucceed executeOut planOut parseOut ExecuteQuery
  rcases hp : sdb.parser.Parse param.Query w with ⟨⟨stmt, perr⟩, w1⟩
  cases perr with
  | some e =>
    dsimp only
    exact ⟨_, _, _, rfl, by simp⟩
  | none =>
    dsimp only
    rcases hl : sdb.planner.Plan stmt w1 with ⟨⟨plan, lerr⟩, w2⟩
    cases lerr with
    | some e =>
      dsimp only
      exact ⟨_, _, _, rfl, by simp⟩
    | none =>
      dsimp only
      have hx := hexec plan w2
      rcases he : sdb.executor.Execute plan w2 with ⟨⟨r, xerr⟩, w3⟩
      rw [he] at hx
      cases xerr with
      | some e =>
        cases r <;> dsimp only <;> exact ⟨_, _, _, rfl, by simp⟩
      | none =>
        obtain ⟨res, rs, hr, hrs⟩ := hx rfl
        dsimp only at hr
        subst hr
        dsimp only
        rw [hrs]
        dsimp only
        exact ⟨_, _, _, rfl, by simp⟩

/-- Witness of the amended C8: three stages that succeed, the executor
answering a `Result` whose `RS` carries the message "1 row" (world 3 after the
three calls); and a parser that fails with "syntax error" (world 1, `Parse` the
only call). -/
theorem ExecuteQuery_shape_witness :
    (∃ res w2 calls,
      ExecuteQuery (scriptedSDB none none none none none
        (some { Code := "OK", RS := some { Message := "1 row", Columns := ["a"],
                                            Values := [["1"]], Count := 1 },
                Error := none })) { Query := "select a from t" } 0 = (.ret res, w2, calls) ∧
      res.Code = "OK" ∧ res.RS ≠ none ∧ res.Error = none ∧
      w2 = 3 ∧ calls = [.Parse, .Plan, .Execute]) ∧
    (∃ res w2 calls,
      ExecuteQuery (scriptedSDB (some "syntax error") none none none none
        (some { Code := "OK", RS := some { Message := "1 row", Columns := ["a"],
                                            Values := [["1"]], Count := 1 },
                Error := none })) { Query := "selec a from t" } 0 = (.ret res, w2, calls) ∧
      res.Code = "NG" ∧ res.Error ≠ none ∧ res.RS = none ∧
      w2 = 1 ∧ calls = [.Parse]) := by
  constructor
  · obtain ⟨res, w2, calls, hrun, hok, _, _, _, hcalls⟩ :=
      ExecuteQuery_shape (scriptedSDB none none none none none
          (some { Code := "OK", RS := some { Message := "1 row", Columns := ["a"],
                                              Values := [["1"]], Count := 1 },
                  Error := none })) { Query := "select a from t" } 0
        (fun _ _ _ => ⟨_, _, rfl, rfl⟩)
    have hs := hok ⟨rfl, rfl, rfl⟩
    have hc := hcalls rfl rfl
    exact ⟨res, w2, calls, hrun, hs.1, hs.2.1, hs.2.2, hc.1, hc.2⟩
  · obtain ⟨res, w2, calls, hrun, _, hng, hparse, _, _⟩ :=
      ExecuteQuery_shape (scriptedSDB (some "syntax error") none none none none
          (some { Code := "OK", RS := some { Message := "1 row", Columns := ["a"],
                                              Values := [["1"]], Count := 1 },
                  Error := none })) { Query := "selec a from t" } 0
        (fun _ _ _ => ⟨_, _, rfl, rfl⟩)
    have hs := hng (fun h => absurd h.1 (by simp [parseOut, scriptedSDB]))
    have hc := hparse (by simp [parseOut, scriptedSDB])
    exact ⟨res, w2, calls, hrun, hs.1, hs.2.1, hs.2.2, hc.1, hc.2⟩

/-- Counterexample to C8 as stated: Parse, Plan and Execute all return without
error, the executor reporting its failure in the `Result` it returns (`Code`
"NG", `Error` filled, `RS` nil); `ExecuteQuery` then returns no `Result` at all:
it panics reading `result.RS.Message`. -/
theorem ExecuteQuery_counterexample :
    StagesSucceed (scriptedSDB none none none none none
        (some { Code := "NG", RS := none, Error := some { Message := "no such table" } }))
      { Query := "select a from t" } 0 ∧
    ExecuteQuery (scriptedSDB none none none none none
        (some { Code := "NG", RS := none, Error := some { Message := "no such table" } }))
      { Query := "select a from t" } 0 = (.panic, 3, [.Parse, .Plan, .Execute]) :=
  ⟨⟨rfl, rfl, rfl⟩, rfl⟩

end Sdb
